import Mathlib

/-! Shallow embedding of the unrpa archive codec (src/unrpa/src/rpa.rs).

Bytes are modelled as `Nat`, byte buffers as `List Nat`, machine
integers as `Nat` with explicit wrapping where it matters.  The
`HashMap<String, _>` of the source is modelled as an association list
with `HashMap::insert` semantics (`insertA`).  File-system reads are
modelled by a partial map from path to byte contents.  The f32 archive
version (one of 2.0, 3.0, 3.2, all compared exactly in the source) is
modelled as a `Nat` scaled by ten (20, 30, 32). -/

namespace Unrpa

/-- Mirror of `RpaFileEntry` (rpa.rs 12-20).  The source field named
after the "prepended bytes" is called `prefixBytes` here because its
Rust name is a Lean keyword. -/
structure RpaFileEntry where
  offset : Nat
  length : Nat
  prefixBytes : List Nat
  data : Option (List Nat)
  modified : Bool
  to_delete : Bool
deriving DecidableEq, Repr

/-- The codec-relevant fields of `RpaEditor` (rpa.rs 29-65). -/
structure RpaEditor where
  version : Nat
  key : Nat
  indexes : List (String × RpaFileEntry)
  archive_path : Option String
  modified : Bool
  status_message : String
deriving DecidableEq, Repr

/-- Association-list lookup, modelling `HashMap::get` / `get_mut`. -/
def lookupA {α : Type} : List (String × α) → String → Option α
  | [], _ => none
  | (k, v) :: rest, key => if k = key then some v else lookupA rest key

/-- Association-list insert with `HashMap::insert` semantics: replace
the value at an existing key, otherwise add the binding. -/
def insertA {α : Type} : List (String × α) → String → α → List (String × α)
  | [], k, v => [(k, v)]
  | (k0, v0) :: rest, k, v =>
    if k0 = k then (k, v) :: rest else (k0, v0) :: insertA rest k v

/-- Value of one hexadecimal digit, as accepted by Rust
`from_str_radix(_, 16)`. -/
def hexDigit (c : Char) : Option Nat :=
  if 48 ≤ c.toNat ∧ c.toNat ≤ 57 then some (c.toNat - 48)
  else if 97 ≤ c.toNat ∧ c.toNat ≤ 102 then some (c.toNat - 87)
  else if 65 ≤ c.toNat ∧ c.toNat ≤ 70 then some (c.toNat - 55)
  else none

/-- Mirror of `uN::from_str_radix(s, 16)`: an optional leading plus
sign, at least one character, every character a hex digit, and the
value below `bound` (`2 ^ 32` or `2 ^ 64`); `none` models `Err`. -/
def fromStrRadix16 (s : String) (bound : Nat) : Option Nat :=
  let cs := match s.data with
    | '+' :: rest => rest
    | cs => cs
  if cs.length = 0 then none
  else
    (cs.foldl (fun acc c =>
      match acc, hexDigit c with
      | some a, some d => some (16 * a + d)
      | _, _ => none) (some 0)).bind
      (fun v => if v < bound then some v else none)

/-- Mirror of `get_version` (rpa.rs 237-253): read the first 32 bytes
of the file (error if shorter) and classify by literal prefix match. -/
def get_version (file : String) : Except String Nat :=
  if file.data.length < 32 then Except.error "read_exact failed"
  else
    let header := file.data.take 32
    if List.isPrefixOf "RPA-3.2 ".data header then Except.ok 32
    else if List.isPrefixOf "RPA-3.0 ".data header then Except.ok 30
    else if List.isPrefixOf "RPA-2".data header then Except.ok 20
    else Except.error "Unsupported RPA version"

/-- Split a character list at every separator, keeping empty pieces
(the behaviour of splitting before filtering). -/
def splitWhen (p : Char → Bool) : List Char → List (List Char)
  | [] => [[]]
  | c :: rest =>
    if p c then [] :: splitWhen p rest
    else
      match splitWhen p rest with
      | t :: ts => (c :: t) :: ts
      | [] => [[c]]

/-- The whitespace-separated tokens of the first line of the file, as
computed by `extract_indexes` (rpa.rs 256-264): bytes up to the first
line feed, split on whitespace with empty pieces dropped, which is
`split_whitespace` of the source. -/
def headerTokens (file : String) : List String :=
  ((splitWhen (fun c => c.isWhitespace) (file.data.takeWhile (fun c => c ≠ '\n'))).filter
    (fun t => t ≠ [])).map (fun t => String.mk t)

/-- Key-fragment tokens: the XOR fold starts at token 3 when the
version is at least 3.2 and at token 2 otherwise (rpa.rs 270). -/
def keyFragments (version : Nat) (parts : List String) : List String :=
  parts.drop (if version ≥ 32 then 3 else 2)

/-- XOR-fold of the key fragments, each parsed as a 32-bit hex integer
(rpa.rs 271-274); `none` if any fragment is malformed. -/
def foldKey : List String → Nat → Option Nat
  | [], key => some key
  | s :: rest, key =>
    match fromStrRadix16 s (2 ^ 32) with
    | some subkey => foldKey rest (key ^^^ subkey)
    | none => none

/-- Result of the header-parsing part of `extract_indexes` (rpa.rs
256-275).  `indexOutOfBounds` models the panicking `parts[1]` vector
access on a header line with fewer than two tokens. -/
inductive HeaderOutcome where
  | ok (offset : Nat) (key : Nat)
  | err (msg : String)
  | indexOutOfBounds
deriving DecidableEq, Repr

/-- Mirror of the header part of `extract_indexes`: read the first
line, split into tokens, read token 1 as the 64-bit hex index offset,
and for version at least 3.0 reset the key to 0 and XOR in every
fragment token; for older versions the editor key is left unchanged. -/
def extract_indexes_header (version key0 : Nat) (file : String) : HeaderOutcome :=
  let parts := headerTokens file
  match parts.get? 1 with
  | none => HeaderOutcome.indexOutOfBounds
  | some offTok =>
    match fromStrRadix16 offTok (2 ^ 64) with
    | none => HeaderOutcome.err "offset parse failed"
    | some offset =>
      if version ≥ 30 then
        match foldKey (keyFragments version parts) 0 with
        | some key => HeaderOutcome.ok offset key
        | none => HeaderOutcome.err "key parse failed"
      else HeaderOutcome.ok offset key0

/-- Structured (pickle) values as decoded by `serde_pickle`, restricted
to the shapes the codec inspects.  A dictionary key is stored as the
plain string content; the source renders the key with `to_string()`
(which quotes strings) and then strips every double quote, so on a
string key the net effect is `String.replace key "\"" ""`, which is
applied in `parse_index_pickle` below. -/
inductive PValue where
  | dict (entries : List (String × PValue))
  | list (xs : List PValue)
  | tuple (xs : List PValue)
  | i64 (n : Int)
  | bytes (bs : List Nat)
  | other

/-- `i as u64` for a decoded signed 64-bit integer: two's-complement
wrap into `[0, 2 ^ 64)`. -/
def u64ofInt (i : Int) : Nat := (i % (2 ^ 64 : Int)).toNat

/-- The entry accepted by `parse_index_pickle` for one dictionary value
(rpa.rs 201-227): exactly a one-element list holding a 3-tuple of
(i64 offset, i64 length, byte-string), with offset and length unmasked
by XOR with the key; any other shape is rejected (`none`). -/
def entryOfValue (key : Nat) : PValue → Option RpaFileEntry
  | PValue.list [PValue.tuple [PValue.i64 o, PValue.i64 l, PValue.bytes p]] =>
    some { offset := u64ofInt o ^^^ key, length := u64ofInt l ^^^ key,
           prefixBytes := p, data := none, modified := false, to_delete := false }
  | _ => none

/-- Removal of every double quote from a rendered dictionary key: the
`key.to_string().replace("\"", "")` of the source (rpa.rs 199). -/
def stripQuotes (s : String) : String := String.mk (s.data.filter (fun c => c ≠ '"'))

/-- One step of the dictionary fold in `parse_index_pickle`: insert
the accepted entry under the quote-stripped key, or skip. -/
def pickleStep (key : Nat) (acc : List (String × RpaFileEntry)) (kv : String × PValue) : List (String × RpaFileEntry) :=
  match entryOfValue key kv.2 with
  | some e => insertA acc (stripQuotes kv.1) e
  | none => acc

/-- Mirror of `parse_index_pickle` (rpa.rs 192-235) over the decoded
pickle value: an error unless the root is a dictionary; otherwise fold
over the entries, silently skipping every value whose shape
`entryOfValue` rejects. -/
def parse_index_pickle (key : Nat) : PValue → Except String (List (String × RpaFileEntry))
  | PValue.dict entries => Except.ok (entries.foldl (pickleStep key) [])
  | _ => Except.error "Pickle root is not a dict"

/-- Whether a pickle value is a dictionary at the root. -/
def isDictB : PValue → Bool
  | PValue.dict _ => true
  | _ => false

/-- First `some` produced by `f` along a list, in order; models the
early-`return` scans of the heuristic recovery loops. -/
def firstSome {α β : Type} (f : α → Option β) : List α → Option β
  | [] => none
  | a :: rest =>
    match f a with
    | some b => some b
    | none => firstSome f rest

/-- Rust `u8::is_ascii_graphic`: printable, non-space ASCII. -/
def isGraphic (b : Nat) : Bool := decide (33 ≤ b ∧ b ≤ 126)

/-- The separator characters excluded by the `is_valid_char` closure in
`extract_filename_at_pos` (rpa.rs 333-335). -/
def isExcluded (b : Nat) : Bool :=
  b == 34 || b == 92 || b == 58 || b == 42 || b == 63 || b == 60 || b == 62 || b == 124

/-- The `is_valid_char` closure: ASCII graphic and not excluded
(graphic already implies ASCII). -/
def isValidChar (b : Nat) : Bool := isGraphic b && !isExcluded b

/-- The bytes of a (pure-ASCII) string. -/
def strBytes (s : String) : List Nat := s.data.map Char.toNat

/-- The extension allow-list of `is_valid_filename` (rpa.rs 408-411). -/
def extensions : List String :=
  [".png", ".jpg", ".jpeg", ".webp", ".webm", ".avi", ".mp4", ".mov", ".ogg",
   ".wav", ".mp3", ".flac", ".rpy", ".rpyc"]

/-- The extension allow-list as byte sequences. -/
def extensionsBytes : List (List Nat) := extensions.map strBytes

/-- Suffix test on byte sequences; on ASCII data this is exactly
`str::ends_with`. -/
def endsWithL (l suffix : List Nat) : Bool :=
  l.drop (l.length - suffix.length) == suffix

/-- Mirror of `is_valid_filename` (rpa.rs 403-414) on the bytes of the
candidate run (all ASCII by construction, so the byte length and the
suffix tests agree with the source's string operations): length
between 2 and 200 and one of the allowed extensions. -/
def is_valid_filename (run : List Nat) : Bool :=
  if run.length < 2 || run.length > 200 then false
  else extensionsBytes.any (fun ext => endsWithL run ext)

/-- Mirror of `extract_filename_at_pos` (rpa.rs 317-350): skip to the
next graphic byte (the source also tests for a slash, which is itself
graphic), take the longest run of valid filename characters, and
accept when `is_valid_filename` holds, returning the decoded name and
the index one past its last byte. -/
def extract_filename_at_pos (data : List Nat) (start_pos : Nat) : Option (String × Nat) :=
  let pos := start_pos + (data.drop start_pos).findIdx (fun b => isGraphic b || b == 47)
  if pos < data.length then
    let run := (data.drop pos).takeWhile isValidChar
    if is_valid_filename run then
      some (String.mk (run.map Char.ofNat), pos + run.length)
    else none
  else none

/-- Little-endian u32 built from four bytes. -/
def leU32 (b0 b1 b2 b3 : Nat) : Nat := b0 + 256 * b1 + 65536 * b2 + 16777216 * b3

/-- Mirror of `is_reasonable_entry` (rpa.rs 416-422). -/
def is_reasonable_entry (offset length : Nat) : Bool :=
  decide (50 < offset) && decide (offset < 2000000000) && decide (0 < length)
    && decide (length < 500000000) && decide (offset + length < 2000000000)

/-- The little-endian u32 read from the four bytes after a `J` marker
at `pos`: the `val1` and `val2` reads of `extract_j_values_at`. -/
def jVal (data : List Nat) (pos : Nat) : Nat :=
  leU32 (data.getD (pos + 1) 0) (data.getD (pos + 2) 0)
    (data.getD (pos + 3) 0) (data.getD (pos + 4) 0)

/-- Mirror of `extract_j_values_at` (rpa.rs 375-401): at a `J` marker
byte (74) read a little-endian u32, then search positions pos+5 to
pos+14 for a second `J` marker and u32; unmask both with the key and
return the first pair passing `is_reasonable_entry`, with an empty
prefix. -/
def extract_j_values_at (key : Nat) (data : List Nat) (pos : Nat) : Option (Nat × Nat × List Nat) :=
  if pos + 9 < data.length ∧ data.getD pos 0 = 74 then
    firstSome (fun next_pos =>
      if next_pos + 4 < data.length ∧ data.getD next_pos 0 = 74 then
        if is_reasonable_entry (jVal data pos ^^^ key) (jVal data next_pos ^^^ key) then
          some (jVal data pos ^^^ key, jVal data next_pos ^^^ key, ([] : List Nat))
        else none
      else none) ((List.range 10).map (fun i => pos + 5 + i))
  else none

/-- Mirror of `find_entry_data_after_filename` (rpa.rs 352-373): scan
up to 100 bytes after the filename for a `J` marker whose value pair
passes the sanity filter, and build the recovered entry. -/
def find_entry_data_after_filename (key : Nat) (data : List Nat) (start_pos : Nat) : Option RpaFileEntry :=
  let search_end := min (start_pos + 100) data.length
  firstSome
    (fun pos =>
      if pos + 10 < data.length ∧ data.getD pos 0 = 74 then
        match extract_j_values_at key data pos with
        | some (offset, length, prefixB) =>
          if is_reasonable_entry offset length then
            some { offset := offset, length := length, prefixBytes := prefixB,
                   data := none, modified := false, to_delete := false }
          else none
        | none => none
      else none)
    ((List.range (search_end - start_pos)).map (fun i => start_pos + i))

/-- One iteration of the `parse_binary_dict` scan loop (rpa.rs
301-312): the produced entry, if any, and the next cursor position. -/
def scanStep (key : Nat) (data : List Nat) (pos : Nat) : Option (String × RpaFileEntry) × Nat :=
  match extract_filename_at_pos data pos with
  | some (filename, filename_end) =>
    match find_entry_data_after_filename key data filename_end with
    | some entry => (some (filename, entry), filename_end + 50)
    | none => (none, filename_end)
  | none => (none, pos + 1)

/-- The scan loop of `parse_binary_dict`, with explicit fuel.  The
cursor strictly increases on every iteration, so `data.length + 1`
units of fuel always reach the `pos ≥ data.length` exit. -/
def parse_binary_dict_go (key : Nat) (data : List Nat) : Nat → Nat → List (String × RpaFileEntry) → List (String × RpaFileEntry)
  | 0, _, acc => acc
  | fuel + 1, pos, acc =>
    if pos < data.length then
      match scanStep key data pos with
      | (some (filename, entry), next) =>
        parse_binary_dict_go key data fuel next (insertA acc filename entry)
      | (none, next) => parse_binary_dict_go key data fuel next acc
    else acc

/-- Mirror of `parse_binary_dict` (rpa.rs 297-315), the heuristic
index recovery over the decompressed buffer. -/
def parse_binary_dict (key : Nat) (data : List Nat) : List (String × RpaFileEntry) :=
  parse_binary_dict_go key data (data.length + 1) 0 []

/-- The index-decode dispatch of `extract_indexes` (rpa.rs 285-294):
use the structured decode when it succeeds, otherwise fall back to the
heuristic byte scan of the same decompressed buffer. -/
def extract_index_result (key : Nat) (decoded : PValue) (decompressed : List Nat) : List (String × RpaFileEntry) :=
  match parse_index_pickle key decoded with
  | Except.ok indexes => indexes
  | Except.error _ => parse_binary_dict key decompressed

/-- Mirror of `load_file_data` (rpa.rs 424-447), with the file system
modelled as a partial map from path to byte contents.  An in-memory
override is returned directly; otherwise the backing file is opened,
the read starts at the entry offset, and `read_exact` of
`length - prefix-length` bytes succeeds exactly when that many bytes
remain from the offset. -/
def load_file_data (fs : String → Option (List Nat)) (ed : RpaEditor) (filename : String) : Except String (List Nat) :=
  match lookupA ed.indexes filename with
  | some entry =>
    match entry.data with
    | some d => Except.ok d
    | none =>
      match ed.archive_path with
      | some path =>
        match fs path with
        | some bytes =>
          let remaining := entry.length - entry.prefixBytes.length
          if entry.offset + remaining ≤ bytes.length then
            Except.ok (entry.prefixBytes ++ (bytes.drop entry.offset).take remaining)
          else Except.error "read_exact failed"
        | none => Except.error "open failed"
      | none => Except.error "File not found"
  | none => Except.error "File not found"

/-- Mirror of `replace_file` (rpa.rs 665-714).  Exactly as in the
source, the replacement bytes are read from `filename` (the
archive-relative name, used as an on-disk path) and the store entry
keyed by `new_file_path` is updated; the existence and is-file checks
and the read are all on `filename`. -/
def replace_file (fs : String → Option (List Nat)) (ed : RpaEditor) (filename new_file_path : String) : Except String RpaEditor :=
  match fs filename with
  | none => Except.error ("Replacement file not found: " ++ filename)
  | some new_data =>
    match lookupA ed.indexes new_file_path with
    | some entry =>
      Except.ok { ed with
        indexes := insertA ed.indexes new_file_path
          { entry with data := some new_data, modified := true, length := new_data.length },
        modified := true,
        status_message := "Replaced: " ++ filename }
    | none => Except.error ("File not found in the archive: " ++ filename)

/-- Mirror of `remove_file` (rpa.rs 764-770): mark an existing entry
for deletion and update the session flags; do nothing at all for an
absent filename. -/
def remove_file (ed : RpaEditor) (filename : String) : RpaEditor :=
  match lookupA ed.indexes filename with
  | some entry =>
    { ed with
      indexes := insertA ed.indexes filename { entry with to_delete := true },
      modified := true,
      status_message := "Marked " ++ filename ++ " for deletion" }
  | none => ed

/-- Insertion sort by filename, modelling the save loop's
`files.sort_by_key` over the store (rpa.rs 781-782). -/
def insertSorted (p : String × RpaFileEntry) : List (String × RpaFileEntry) → List (String × RpaFileEntry)
  | [] => [p]
  | q :: rest => if p.1 ≤ q.1 then p :: q :: rest else q :: insertSorted p rest

/-- Stable sort of the store's bindings in lexicographic name order. -/
def sortByName (l : List (String × RpaFileEntry)) : List (String × RpaFileEntry) :=
  l.foldr insertSorted []

/-- What `save_rpa` writes: the payload bytes emitted after the fixed
0x34-byte header region (in write order), the fresh index mapping
(filename to the one recorded (offset, length) pair, obfuscated only
for version 3.0), and the final write cursor, which becomes the index
offset written into the header. -/
structure SaveResult where
  payload : List Nat
  indexEntries : List (String × List (Nat × Nat))
  finalOffset : Nat
deriving DecidableEq, Repr

/-- The entry loop of `save_rpa` (rpa.rs 784-813): for each entry in
order, take the override bytes if present, otherwise slice
`[offset, offset + length)` out of the original file's bytes (an
out-of-range slice is a hard error); append the payload and record the
fresh index pair. -/
def save_go (version key : Nat) (old_data : List Nat) : List (String × RpaFileEntry) → Nat → List Nat → List (String × List (Nat × Nat)) → Except String SaveResult
  | [], offset, payload, idx =>
    Except.ok { payload := payload, indexEntries := idx, finalOffset := offset }
  | (name, entry) :: rest, offset, payload, idx =>
    match (match entry.data with
      | some d => Except.ok d
      | none =>
        if entry.offset + entry.length ≤ old_data.length then
          Except.ok ((old_data.drop entry.offset).take entry.length)
        else
          Except.error ("Data not found in the old archive for " ++ name) :
        Except String (List Nat)) with
    | Except.error e => Except.error e
    | Except.ok d =>
      let recorded :=
        if version = 30 then (offset ^^^ key, d.length ^^^ key) else (offset, d.length)
      save_go version key old_data rest (offset + d.length) (payload ++ d)
        (insertA idx name [recorded])

/-- Mirror of `save_rpa` (rpa.rs 772-830) at the level of the written
payload and the fresh index: all store entries, in lexicographic
filename order, are processed starting at write offset 0x34.  The
source never consults the `to_delete` flag here. -/
def save_rpa (version key : Nat) (indexes : List (String × RpaFileEntry)) (old_data : List Nat) : Except String SaveResult :=
  save_go version key old_data (sortByName indexes) 0x34 [] []

/-- The pickle value of the fresh index that `serde_pickle::to_vec`
serializes and the zlib stream carries (rpa.rs 815-820): each filename
maps to a list holding one 2-tuple (offset, length).  Pickling then
unpickling is modelled as the identity on this structured value. -/
def saveIndexValue (idx : List (String × List (Nat × Nat))) : PValue :=
  PValue.dict (idx.map (fun nv =>
    (nv.1, PValue.list (nv.2.map (fun ol =>
      PValue.tuple [PValue.i64 (ol.1 : Int), PValue.i64 (ol.2 : Int)])))))

/-! Concrete fixtures used by the witness and counterexample theorems. -/

/-- The scenario header of the spec: version 3.0, offset 0x100, one
key fragment DEADBEEF. -/
def hdr30 : String := "RPA-3.0 0000000000000100 DEADBEEF\n"

/-- A 3.0 header with two trailing tokens: both are key fragments. -/
def hdr30b : String := "RPA-3.0 0000000000000100 11111111 DEADBEEF\n"

/-- A 3.2 header with the same trailing tokens as `hdr30b`: the first
of them is skipped, only DEADBEEF enters the key. -/
def hdr32 : String := "RPA-3.2 0000000000000100 11111111 DEADBEEF\n"

/-- A file that passes version detection as 2.0 but whose first line
holds a single whitespace token. -/
def file9 : String := "RPA-2\n" ++ String.mk (List.replicate 26 'x')

/-- The bytes of "ab.png": a filename match with no marker bytes after
it. -/
def scanData : List Nat := [97, 98, 46, 112, 110, 103]

/-- A buffer in which heuristic recovery finds "ab.png" followed by a
`J` 100u32 marker and a `J` 10u32 marker. -/
def heurData : List Nat :=
  [97, 98, 46, 112, 110, 103, 0, 74, 100, 0, 0, 0, 74, 10, 0, 0, 0, 0]

/-- The entry heuristic recovery produces from `heurData` with key 0. -/
def heurEntry : RpaFileEntry :=
  { offset := 100, length := 10, prefixBytes := [], data := none,
    modified := false, to_delete := false }

/-- A store entry marked for deletion, with an in-memory payload. -/
def entryDel : RpaFileEntry :=
  { offset := 0, length := 3, prefixBytes := [], data := some [1, 2, 3],
    modified := true, to_delete := true }

/-- What `save_rpa 30 0 [("a.png", entryDel)] []` writes. -/
def saveDelResult : SaveResult :=
  { payload := [1, 2, 3], indexEntries := [("a.png", [(52, 3)])], finalOffset := 55 }

/-- An untouched on-disk entry (no override): bytes [2, 5) of the
backing archive. -/
def entryRt : RpaFileEntry :=
  { offset := 2, length := 3, prefixBytes := [], data := none,
    modified := false, to_delete := false }

/-- The backing archive bytes for `entryRt`. -/
def oldRt : List Nat := [9, 9, 7, 7, 7, 9]

/-- What `save_rpa 30 0 [("a.png", entryRt)] oldRt` writes. -/
def saveRt : SaveResult :=
  { payload := [7, 7, 7], indexEntries := [("a.png", [(52, 3)])], finalOffset := 55 }

/-- An on-disk entry with a one-byte stored prefix. -/
def entryOn : RpaFileEntry :=
  { offset := 1, length := 3, prefixBytes := [5], data := none,
    modified := false, to_delete := false }

/-- An editor session holding `entryOn` under "a.png" with backing
path "arch". -/
def edOn : RpaEditor :=
  { version := 30, key := 0, indexes := [("a.png", entryOn)],
    archive_path := some "arch", modified := false, status_message := "Ready" }

/-- A file system carrying only the backing archive "arch". -/
def fsArch : String → Option (List Nat) :=
  fun s => if s = "arch" then some [0, 1, 2, 3] else none

/-- A file system carrying only the replacement source "/new.bin". -/
def fs0 : String → Option (List Nat) :=
  fun s => if s = "/new.bin" then some [9, 9] else none

/-- A file system that also happens to carry a disk file named
"a.png" next to the replacement source. -/
def fs1 : String → Option (List Nat) :=
  fun s => if s = "a.png" then some [9, 9]
    else if s = "/new.bin" then some [7] else none

/-- A freshly initialised editor session with an empty store. -/
def edEmpty : RpaEditor :=
  { version := 32, key := 3735928559, indexes := [], archive_path := none,
    modified := false, status_message := "Ready" }

/-! Helper lemmas. -/

theorem firstSome_eq_some_mem {α β : Type} (f : α → Option β) :
    ∀ (l : List α) (b : β), firstSome f l = some b → ∃ a, a ∈ l ∧ f a = some b := by
  intro l
  induction l with
  | nil => intro b h; cases h
  | cons x xs ih =>
    intro b h
    unfold firstSome at h
    split at h
    · rename_i v hx
      exact ⟨x, List.mem_cons_self x xs, by rw [hx, h]⟩
    · obtain ⟨a, ha, hf⟩ := ih b h
      exact ⟨a, List.mem_cons_of_mem x ha, hf⟩

theorem insertA_mem {α : Type} :
    ∀ (m : List (String × α)) (k : String) (v : α) (p : String × α),
      p ∈ insertA m k v → p = (k, v) ∨ p ∈ m := by
  intro m
  induction m with
  | nil =>
    intro k v p hp
    simp [insertA] at hp
    exact Or.inl hp
  | cons q rest ih =>
    intro k v p hp
    unfold insertA at hp
    by_cases hq : q.1 = k
    · rw [if_pos hq] at hp
      rcases List.mem_cons.mp hp with h | h
      · exact Or.inl h
      · exact Or.inr (List.mem_cons_of_mem q h)
    · rw [if_neg hq] at hp
      rcases List.mem_cons.mp hp with h | h
      · exact Or.inr (h ▸ List.mem_cons_self q rest)
      · rcases ih k v p h with h2 | h2
        · exact Or.inl h2
        · exact Or.inr (List.mem_cons_of_mem q h2)

theorem extract_j_values_at_sound (key : Nat) (data : List Nat) (pos : Nat)
    (o l : Nat) (p : List Nat)
    (h : extract_j_values_at key data pos = some (o, l, p)) :
    is_reasonable_entry o l = true ∧ p = [] := by
  unfold extract_j_values_at at h
  split at h
  · obtain ⟨a, _, hf⟩ := firstSome_eq_some_mem _ _ _ h
    split at hf
    · split at hf
      · rename_i hr
        cases hf
        exact ⟨hr, rfl⟩
      · cases hf
    · cases hf
  · cases h

theorem find_entry_data_after_filename_sound (key : Nat) (data : List Nat)
    (start_pos : Nat) (e : RpaFileEntry)
    (h : find_entry_data_after_filename key data start_pos = some e) :
    is_reasonable_entry e.offset e.length = true ∧ e.prefixBytes = [] := by
  unfold find_entry_data_after_filename at h
  obtain ⟨a, _, hf⟩ := firstSome_eq_some_mem _ _ _ h
  split at hf
  · split at hf
    · rename_i o l p hj
      split at hf
      · rename_i hr
        cases hf
        have hp := (extract_j_values_at_sound key data a o l p hj).2
        exact ⟨hr, hp⟩
      · cases hf
    · cases hf
  · cases hf

theorem scanStep_accept (key : Nat) (data : List Nat) (pos : Nat)
    (f : String) (e : RpaFileEntry) (next : Nat)
    (h : scanStep key data pos = (some (f, e), next)) :
    ∃ fe, extract_filename_at_pos data pos = some (f, fe) ∧
      find_entry_data_after_filename key data fe = some e ∧ next = fe + 50 := by
  unfold scanStep at h
  split at h
  · rename_i f0 fe hext
    split at h
    · rename_i e0 hfind
      cases h
      exact ⟨fe, hext, hfind, rfl⟩
    · cases h
  · cases h

theorem parse_binary_dict_go_sound (key : Nat) (data : List Nat) :
    ∀ (fuel pos : Nat) (acc : List (String × RpaFileEntry)),
      (∀ p ∈ acc, is_reasonable_entry p.2.offset p.2.length = true ∧ p.2.prefixBytes = []) →
      ∀ p ∈ parse_binary_dict_go key data fuel pos acc,
        is_reasonable_entry p.2.offset p.2.length = true ∧ p.2.prefixBytes = [] := by
  intro fuel
  induction fuel with
  | zero => intro pos acc hacc p hp; exact hacc p hp
  | succ n ih =>
    intro pos acc hacc p hp
    unfold parse_binary_dict_go at hp
    split at hp
    · split at hp
      · rename_i filename entry next heq
        refine ih next (insertA acc filename entry) ?_ p hp
        intro q hq
        rcases insertA_mem acc filename entry q hq with h | h
        · obtain ⟨fe, _, hfind, _⟩ := scanStep_accept key data pos filename entry next heq
          have := find_entry_data_after_filename_sound key data fe entry hfind
          rw [h]
          exact this
        · exact hacc q h
      · rename_i next heq
        exact ih next acc hacc p hp
    · exact hacc p hp

/-- C6: every entry produced by heuristic index recovery satisfies
50 < offset < 2000000000, 0 < length < 500000000 and
offset + length < 2000000000, and carries an empty prefix. -/
theorem heuristic_entries_reasonable (key : Nat) (data : List Nat)
    (p : String × RpaFileEntry) (hp : p ∈ parse_binary_dict key data) :
    50 < p.2.offset ∧ p.2.offset < 2000000000 ∧ 0 < p.2.length ∧
      p.2.length < 500000000 ∧ p.2.offset + p.2.length < 2000000000 ∧
      p.2.prefixBytes = [] := by
  have h := parse_binary_dict_go_sound key data (data.length + 1) 0 []
    (by intro q hq; cases hq) p hp
  obtain ⟨hr, hpre⟩ := h
  unfold is_reasonable_entry at hr
  simp only [Bool.and_eq_true, decide_eq_true_eq] at hr
  exact ⟨hr.1.1.1.1, hr.1.1.1.2, hr.1.1.2, hr.1.2, hr.2, hpre⟩

/-- C6 witness: on a concrete buffer the recovery produces the entry
(offset 100, length 10, empty prefix), and the theorem's bounds hold
for it. -/
theorem heuristic_entries_reasonable_witness :
    (("ab.png", heurEntry) ∈ parse_binary_dict 0 heurData) ∧
      (50 < heurEntry.offset ∧ heurEntry.offset < 2000000000 ∧
        0 < heurEntry.length ∧ heurEntry.length < 500000000 ∧
        heurEntry.offset + heurEntry.length < 2000000000 ∧
        heurEntry.prefixBytes = []) :=
  ⟨by decide, heuristic_entries_reasonable 0 heurData ("ab.png", heurEntry) (by decide)⟩

/-- C7 (counterexample): on the buffer holding exactly the bytes of
"ab.png", position 0 is a filename match (ending at 6) whose following
bytes yield no accepted pair, yet the scan cursor advances to 6, not
to 0 + 1 as the claim states. -/
theorem scan_cursor_counterexample :
    extract_filename_at_pos scanData 0 = some ("ab.png", 6) ∧
      find_entry_data_after_filename 0 scanData 6 = none ∧
      scanStep 0 scanData 0 = (none, 6) ∧ (6 : Nat) ≠ 0 + 1 := by
  refine ⟨by decide, by decide, by decide, by decide⟩

/-- C7 (amended): after a filename match with an accepted pair the
cursor advances to filename-end + 50; after a filename match with no
accepted pair it advances to filename-end; with no filename match it
advances by exactly one byte. -/
theorem scan_cursor_advance (key : Nat) (data : List Nat) (pos : Nat) :
    (∀ f fe e, extract_filename_at_pos data pos = some (f, fe) →
        find_entry_data_after_filename key data fe = some e →
        scanStep key data pos = (some (f, e), fe + 50)) ∧
      (∀ f fe, extract_filename_at_pos data pos = some (f, fe) →
        find_entry_data_after_filename key data fe = none →
        scanStep key data pos = (none, fe)) ∧
      (extract_filename_at_pos data pos = none →
        scanStep key data pos = (none, pos + 1)) := by
  refine ⟨?_, ?_, ?_⟩
  · intro f fe e h1 h2
    simp [scanStep, h1, h2]
  · intro f fe h1 h2
    simp [scanStep, h1, h2]
  · intro h1
    simp [scanStep, h1]

/-- C7 witness: the amended cursor rule applied to the concrete
"ab.png" buffer at position 0. -/
theorem scan_cursor_advance_witness : scanStep 0 scanData 0 = (none, 6) :=
  (scan_cursor_advance 0 scanData 0).2.1 "ab.png" 6 (by decide) (by decide)

theorem pickleFold_filter (key : Nat) :
    ∀ (entries : List (String × PValue)) (acc : List (String × RpaFileEntry)),
      entries.foldl (pickleStep key) acc =
        (entries.filter (fun kv => (entryOfValue key kv.2).isSome)).foldl
          (pickleStep key) acc := by
  intro entries
  induction entries with
  | nil => intro acc; rfl
  | cons kv rest ih =>
    intro acc
    cases hv : entryOfValue key kv.2 with
    | some e =>
      have hb : (entryOfValue key kv.2).isSome = true := by rw [hv]; rfl
      simp only [List.foldl_cons, List.filter_cons, hb, if_true]
      exact ih _
    | none =>
      have hb : (entryOfValue key kv.2).isSome = false := by rw [hv]; rfl
      have hstep : pickleStep key acc kv = acc := by unfold pickleStep; rw [hv]
      simp only [List.foldl_cons, List.filter_cons, hb, Bool.false_eq_true, if_false, hstep]
      exact ih acc

/-- C5: with a dictionary root the structured decode always succeeds
and returns exactly the entries of the well-shaped dictionary values,
skipping the rest; a non-dictionary root is the only error; and on
that error the index extraction falls back to heuristic recovery
rather than failing the load. -/
theorem structured_decode_permissive (key : Nat) :
    (∀ entries, (parse_index_pickle key (PValue.dict entries)).isOk = true) ∧
      (∀ entries, parse_index_pickle key (PValue.dict entries) =
        parse_index_pickle key
          (PValue.dict (entries.filter (fun kv => (entryOfValue key kv.2).isSome)))) ∧
      (∀ v, isDictB v = false →
        parse_index_pickle key v = Except.error "Pickle root is not a dict") ∧
      (∀ v raw msg, parse_index_pickle key v = Except.error msg →
        extract_index_result key v raw = parse_binary_dict key raw) := by
  refine ⟨fun entries => rfl, fun entries => ?_, ?_, ?_⟩
  · exact congrArg Except.ok (pickleFold_filter key entries [])
  · intro v hv
    cases v with
    | dict entries => simp [isDictB] at hv
    | list xs => rfl
    | tuple xs => rfl
    | i64 n => rfl
    | bytes bs => rfl
    | other => rfl
  · intro v raw msg h
    simp [extract_index_result, h]

/-- C5 witness: a non-dictionary root yields the error and the fall
back to the heuristic scan. -/
theorem structured_decode_permissive_witness :
    parse_index_pickle 0 PValue.other = Except.error "Pickle root is not a dict" ∧
      extract_index_result 0 PValue.other [] = parse_binary_dict 0 [] :=
  ⟨(structured_decode_permissive 0).2.2.1 PValue.other rfl,
   (structured_decode_permissive 0).2.2.2 PValue.other [] "Pickle root is not a dict"
     ((structured_decode_permissive 0).2.2.1 PValue.other rfl)⟩

/-- C4: the spec scenario header is classified as version 3.0 with
index offset 0x100 and derived key 0xDEADBEEF; the key fold starts at
token 2 for version exactly 3.0 and at token 3 for version 3.2, shown
on the definition and on two headers with identical trailing tokens
(for 3.0 both trailing tokens enter the key, for 3.2 the first is
skipped). -/
theorem header_version_key_offset :
    get_version hdr30 = Except.ok 30 ∧
      extract_indexes_header 30 3735928559 hdr30 = HeaderOutcome.ok 256 3735928559 ∧
      (∀ parts : List String, keyFragments 30 parts = parts.drop 2) ∧
      (∀ parts : List String, keyFragments 32 parts = parts.drop 3) ∧
      extract_indexes_header 30 0 hdr30b = HeaderOutcome.ok 256 3485249534 ∧
      extract_indexes_header 32 0 hdr32 = HeaderOutcome.ok 256 3735928559 :=
  ⟨by rfl, by decide, fun parts => rfl, fun parts => rfl, by decide, by decide⟩

/-- C8: with no in-memory override, under the invariant bounds the
accessor returns the stored prefix followed by exactly
length - prefix-length bytes read from the backing file starting at
the entry offset (the prefix bytes are never read from disk), for a
payload of exactly length bytes; with an override present a copy of it
is returned for every file system, hence without file access. -/
theorem accessor_prefix_and_override (fs : String → Option (List Nat)) (ed : RpaEditor)
    (filename path : String) (entry : RpaFileEntry) (bytes : List Nat)
    (hlu : lookupA ed.indexes filename = some entry) :
    (entry.data = none → ed.archive_path = some path → fs path = some bytes →
      entry.prefixBytes.length ≤ entry.length →
      entry.offset + entry.length ≤ bytes.length →
      load_file_data fs ed filename =
        Except.ok (entry.prefixBytes ++
          (bytes.drop entry.offset).take (entry.length - entry.prefixBytes.length)) ∧
      (entry.prefixBytes ++
          (bytes.drop entry.offset).take (entry.length - entry.prefixBytes.length)).length =
        entry.length) ∧
    (∀ d, entry.data = some d →
      ∀ fs2 : String → Option (List Nat), load_file_data fs2 ed filename = Except.ok d) := by
  constructor
  · intro hdata hpath hfs hpre hbound
    constructor
    · simp only [load_file_data, hlu, hdata, hpath, hfs]
      rw [if_pos (by omega)]
    · simp only [List.length_append, List.length_take, List.length_drop]
      omega
  · intro d hd fs2
    simp only [load_file_data, hlu, hd]

/-- C8 witness: the accessor applied to a concrete one-entry store
with prefix [5] over the backing bytes [0, 1, 2, 3]. -/
theorem accessor_prefix_and_override_witness :
    load_file_data fsArch edOn "a.png" =
      Except.ok (entryOn.prefixBytes ++
        (([0, 1, 2, 3] : List Nat).drop entryOn.offset).take
          (entryOn.length - entryOn.prefixBytes.length)) ∧
      (entryOn.prefixBytes ++
        (([0, 1, 2, 3] : List Nat).drop entryOn.offset).take
          (entryOn.length - entryOn.prefixBytes.length)).length = entryOn.length :=
  (accessor_prefix_and_override fsArch edOn "a.png" "arch" entryOn [0, 1, 2, 3]
    (by decide)).1 (by rfl) (by rfl) (by rfl) (by decide) (by decide)

/-- C9 (counterexample): the file "RPA-2" + line feed padded to 32
bytes passes version detection as 2.0, but its header line has a
single token, and reading token 1 is the out-of-bounds access, not a
returned error as the claim states. -/
theorem header_short_token_counterexample :
    get_version file9 = Except.ok 20 ∧
      extract_indexes_header 20 3735928559 file9 = HeaderOutcome.indexOutOfBounds :=
  ⟨by rfl, by decide⟩

/-- C9 (amended): for every file that passes version detection but
whose first line has fewer than two whitespace tokens, the token-1
access in index extraction is out of bounds — the process aborts
(panic) instead of returning an error. -/
theorem header_short_tokens_oob (file : String) (v key0 : Nat)
    (_hv : get_version file = Except.ok v)
    (hlen : (headerTokens file).length < 2) :
    extract_indexes_header v key0 file = HeaderOutcome.indexOutOfBounds := by
  have h1 : (headerTokens file).get? 1 = none := by
    rw [List.get?_eq_none]
    omega
  simp only [extract_indexes_header, h1]

/-- C9 witness: the amended statement applied to the concrete padded
"RPA-2" file. -/
theorem header_short_tokens_oob_witness :
    extract_indexes_header 20 0 file9 = HeaderOutcome.indexOutOfBounds :=
  header_short_tokens_oob file9 20 0 (by rfl) (by decide)

/-- C10: marking an absent filename for deletion leaves the whole
editor state unchanged: the store, the modified flag and the status
message all keep their prior values. -/
theorem remove_absent_noop (ed : RpaEditor) (filename : String)
    (h : lookupA ed.indexes filename = none) :
    remove_file ed filename = ed := by
  unfold remove_file
  rw [h]

/-- C10 witness: removing a missing filename from a fresh session is a
no-op. -/
theorem remove_absent_noop_witness : remove_file edEmpty "missing.png" = edEmpty :=
  remove_absent_noop edEmpty "missing.png" rfl

/-- C1 (code bug): `save_rpa` never consults the deletion flag — for a
store whose only entry is marked for deletion, the save succeeds, the
fresh index still contains the filename, and the entry's payload bytes
are written to the output. -/
theorem save_keeps_deleted_entry :
    entryDel.to_delete = true ∧
      save_rpa 30 0 [("a.png", entryDel)] [] = Except.ok saveDelResult ∧
      lookupA saveDelResult.indexEntries "a.png" = some [(52, 3)] ∧
      saveDelResult.payload = [1, 2, 3] :=
  ⟨by decide, by rfl, by decide, by decide⟩

/-- C2 (code bug): the saver records the fresh index as 2-tuples, but
the loader accepts only 3-tuples, so the index of a freshly saved
archive decodes to an empty store: saving the untouched one-entry
store succeeds, yet decoding the fresh index with the saved key yields
no entries, while the original store contains "a.png". -/
theorem save_reload_drops_all_entries :
    save_rpa 30 0 [("a.png", entryRt)] oldRt = Except.ok saveRt ∧
      parse_index_pickle 0 (saveIndexValue saveRt.indexEntries) = Except.ok [] ∧
      lookupA [("a.png", entryRt)] "a.png" = some entryRt :=
  ⟨by rfl, by rfl, by decide⟩

/-- C3 (code bug): `replace_file` reads the payload bytes from its
first argument (the archive-relative name, used as an on-disk path)
and updates the store entry keyed by its second argument (the on-disk
source path); with "a.png" in the store and a readable source
"/new.bin", the call errors — on the existence check when no on-disk
"a.png" exists, and on the store lookup even when one does — instead
of storing the new bytes under "a.png". -/
theorem replace_file_swaps_arguments :
    lookupA edOn.indexes "a.png" = some entryOn ∧
      fs0 "/new.bin" = some [9, 9] ∧ fs1 "/new.bin" = some [7] ∧
      replace_file fs0 edOn "a.png" "/new.bin" =
        Except.error "Replacement file not found: a.png" ∧
      replace_file fs1 edOn "a.png" "/new.bin" =
        Except.error "File not found in the archive: a.png" :=
  ⟨by decide, by decide, by decide, by rfl, by rfl⟩

end Unrpa
